import Mathlib

/-!
# A formal model of the `dependency_viewer` ingestion / graph-store core

This file gives a shallow embedding, in Lean 4, of the persistence and
harvesting logic of the `dependency_viewer` repository (`src/db.ts`,
`src/salesforce.ts`, `src/server.ts`, and the CLI `index.ts` with its
`repair` command), and proves the behavioural properties claimed by the
specification.

Modelling conventions, used uniformly below:

* The SQLite tables are modelled as Lean lists of rows, in storage
  (insertion) order.  An `INTEGER PRIMARY KEY AUTOINCREMENT` column is
  implicit in the list position, so duplicate `(sourceId, targetId)`
  pairs are represented by the pair occurring several times in the list.
* A JS string field that may be `null`/`undefined` is modelled as
  `Option String` when its *content* matters, and as a plain `String`
  with `""` standing for null/undefined when the code only ever tests
  its truthiness (ids).  JS truthiness of a string is emptiness.
* JS `??` on a possibly-null value is `Option` matching (`coalesce`);
  JS `||` on strings is `jsOr` (falls through on `""` as well).
* A JS `Map` built by iterated `.set` calls is modelled as an
  association list in key insertion order where `set` overwrites the
  value of an existing key in place (`mapSet`); `Array.from(m.values())`
  is `List.map Prod.snd`.
* IEEE-754 double arithmetic in `Math.round((covered / total) * 100)`
  is idealised as exact rational arithmetic (`round` on `ℚ`).
* Asynchronous bounded-concurrency batches are modelled functionally:
  the per-type fetch outcome is a parameter `String → Except ε (List α)`
  and the batch result is the flattened list of per-type results, which
  is what the code's completion barrier (`await Promise.all`) returns.
-/

namespace DepViewer

/-- JS truthiness of a possibly-missing string: `undefined`/`null` and `""`
are falsy, every other string is truthy. -/
def jsTruthy : Option String → Bool
  | none => false
  | some s => s != ""

/-- JS `a || b` on possibly-missing strings: yields `a` when `a` is truthy,
otherwise `b`. -/
def jsOr (a b : Option String) : Option String :=
  if jsTruthy a then a else b

/-- SQL `COALESCE(@new, old)` where `@new` is bound to the incoming value or
NULL (JS `item.size ?? null`). -/
def coalesce (new old : Option Int) : Option Int :=
  match new with
  | some v => some v
  | none => old

/-- A row of the `metadata_components` table
(`id TEXT PRIMARY KEY, name TEXT, type TEXT, size INTEGER, coverage INTEGER`). -/
structure Row where
  id : String
  name : Option String
  type : Option String
  size : Option Int
  coverage : Option Int
deriving Repr, DecidableEq

/-- An input record of `insertComponents` (`{ id, name, type }`). -/
structure NodeRec where
  id : String
  name : Option String
  type : Option String
deriving Repr, DecidableEq

/-- A row of the `metadata_dependencies` table: the schema is
`id INTEGER PRIMARY KEY AUTOINCREMENT, sourceId TEXT, targetId TEXT` (the
autoincrement id is the list position; there is no uniqueness constraint on
the pair).  Foreign keys are declared but SQLite does not enforce them by
default, and `better-sqlite3` leaves them off. -/
structure Edge where
  sourceId : String
  targetId : String
deriving Repr, DecidableEq

/-- The persistent store owned by `db.ts`: both tables. -/
structure Store where
  components : List Row
  deps : List Edge
deriving Repr, DecidableEq

/-- An input record of `updateComponentStats` (`{ id, size?, coverage? }`). -/
structure StatRec where
  id : String
  size : Option Int
  coverage : Option Int
deriving Repr, DecidableEq

/-- A raw `MetadataComponentDependency` record as returned by the Salesforce
tooling query.  Id fields are tested only for truthiness, hence `String`
with `""` for missing; name/type fields are carried, hence `Option`.
`RefMetadataComponentComponentName` is the (misspelt) fallback field the
code consults in `dep.RefMetadataComponentName || dep.RefMetadataComponentComponentName`. -/
structure DepRecord where
  Id : Option String
  MetadataComponentId : String
  MetadataComponentName : Option String
  MetadataComponentType : Option String
  RefMetadataComponentId : String
  RefMetadataComponentName : Option String
  RefMetadataComponentComponentName : Option String
  RefMetadataComponentType : Option String
deriving Repr, DecidableEq

/-- `rows.find?` by primary key: the row stored under id `A`, if any. -/
def lookupRow (rows : List Row) (A : String) : Option Row :=
  rows.find? (fun r => r.id == A)

/-- Whether some stored row has id `A` (the INSERT OR IGNORE conflict test). -/
def hasId (rows : List Row) (A : String) : Bool :=
  rows.any (fun r => r.id == A)

/-- The components-table row created for an inserted record: `INSERT OR IGNORE
INTO metadata_components (id, name, type)` leaves `size`/`coverage` NULL. -/
def toRow (c : NodeRec) : Row :=
  { id := c.id, name := c.name, type := c.type, size := none, coverage := none }

/-- `insertComponents` from `db.ts`: one transaction; for each record,
`if (comp.id)` skips falsy (empty) ids, and the prepared statement is
`INSERT OR IGNORE`, so a record whose id is already present (in the table or
earlier in the same batch) is ignored. -/
def insertComponentsRows (comps : List NodeRec) (rows : List Row) : List Row :=
  comps.foldl
    (fun acc c =>
      if c.id = "" then acc
      else if hasId acc c.id then acc
      else acc ++ [toRow c])
    rows

/-- `insertComponents` acting on the whole store. -/
def insertComponents (comps : List NodeRec) (st : Store) : Store :=
  { st with components := insertComponentsRows comps st.components }

/-- `updateComponentStats` from `db.ts`: one transaction; for each item,
`if (item.id)` skips falsy ids, then
`UPDATE metadata_components SET size = COALESCE(@size, size),
coverage = COALESCE(@coverage, coverage) WHERE id = @id` with the parameters
bound to `item.size ?? null` / `item.coverage ?? null`.  An UPDATE whose
WHERE clause matches no row changes nothing and creates nothing. -/
def updateComponentStatsRows (stats : List StatRec) (rows : List Row) : List Row :=
  stats.foldl
    (fun acc item =>
      if item.id = "" then acc
      else acc.map (fun r =>
        if r.id = item.id then
          { r with size := coalesce item.size r.size,
                   coverage := coalesce item.coverage r.coverage }
        else r))
    rows

/-- `updateComponentStats` acting on the whole store. -/
def updateComponentStats (stats : List StatRec) (st : Store) : Store :=
  { st with components := updateComponentStatsRows stats st.components }

/-- `insertDependencyEdges` from `db.ts`: one transaction; for each record,
`if (item.sourceId && item.targetId) stmt.run(item)` where the statement is a
plain `INSERT INTO metadata_dependencies (sourceId, targetId)` — no
`OR IGNORE`, and the table has no uniqueness constraint on the pair, so every
passing record appends a fresh row. -/
def insertDependencyEdges (edges : List Edge) (st : Store) : Store :=
  { st with
    deps := st.deps ++ edges.filter (fun e => e.sourceId != "" && e.targetId != "") }

/-- JS `Map.get`. -/
def mapGet {β : Type} (m : List (String × β)) (k : String) : Option β :=
  (m.find? (fun e => e.1 == k)).map Prod.snd

/-- JS `Map.set`: overwrite in place if the key is present, else append. -/
def mapSet {β : Type} (m : List (String × β)) (k : String) (v : β) : List (String × β) :=
  match m with
  | [] => [(k, v)]
  | (k', v') :: rest =>
    if k' = k then (k', v) :: rest else (k', v') :: mapSet rest k v

/-- The source-endpoint node record extracted from a dependency record by
`insertDependencies`. -/
def srcNode (d : DepRecord) : NodeRec :=
  { id := d.MetadataComponentId,
    name := d.MetadataComponentName,
    type := d.MetadataComponentType }

/-- The referenced-endpoint node record extracted from a dependency record by
`insertDependencies`, with the `||` name fallback. -/
def refNode (d : DepRecord) : NodeRec :=
  { id := d.RefMetadataComponentId,
    name := jsOr d.RefMetadataComponentName d.RefMetadataComponentComponentName,
    type := d.RefMetadataComponentType }

/-- One iteration of the `for (const dep of deps)` loop of
`insertDependencies`: conditionally `Map.set` the source endpoint, then
conditionally `Map.set` the referenced endpoint. -/
def depStep (m : List (String × NodeRec)) (d : DepRecord) : List (String × NodeRec) :=
  let m1 := if d.MetadataComponentId = "" then m else mapSet m d.MetadataComponentId (srcNode d)
  if d.RefMetadataComponentId = "" then m1 else mapSet m1 d.RefMetadataComponentId (refNode d)

/-- `insertDependencies` from `db.ts` (the variant that persists edges):
dedup both endpoints of every record into a `Map`, insert the map's values as
components, then insert one edge per record with both ids present. -/
def insertDependencies (deps : List DepRecord) (st : Store) : Store :=
  let m := deps.foldl depStep []
  let st1 := insertComponents (m.map Prod.snd) st
  let edges := (deps.filter
      (fun d => d.MetadataComponentId != "" && d.RefMetadataComponentId != "")).map
    (fun d => { sourceId := d.MetadataComponentId, targetId := d.RefMetadataComponentId })
  insertDependencyEdges edges st1

/-- `getComponents` from `db.ts`: `SELECT * FROM metadata_components`. -/
def getComponents (st : Store) : List Row :=
  st.components

/-- SQLite's LIKE case folding: ASCII upper-case letters fold to lower case,
everything else (including non-ASCII) compares verbatim.  Lean's
`Char.toLower` is exactly this ASCII folding. -/
def charFold (c : Char) : Char :=
  c.toLower

/-- SQLite `LIKE` pattern matching over characters: `%` matches any (possibly
empty) run, `_` matches exactly one character, any other pattern character
matches case-insensitively (ASCII). -/
def likeMatch (p s : List Char) : Bool :=
  match p, s with
  | [], s => s.isEmpty
  | a :: p', s =>
    if a = '%' then
      likeMatch p' s ||
        (match s with
         | [] => false
         | _ :: s' => likeMatch (a :: p') s')
    else
      match s with
      | [] => false
      | c :: s' => (a == '_' || charFold a == charFold c) && likeMatch p' s'
termination_by (s.length, p.length)

/-- The LIKE pattern built by `searchComponents`: ``const term = `%${query}%` ``. -/
def sqlitePattern (q : String) : List Char :=
  '%' :: (q.toList ++ ['%'])

/-- The WHERE clause of `searchComponents`:
`name LIKE ? OR id LIKE ?`.  A NULL `name` makes `name LIKE ?` NULL (not
true), so such a row can only match through its id. -/
def rowMatches (q : String) (r : Row) : Bool :=
  (match r.name with
   | some n => likeMatch (sqlitePattern q) n.toList
   | none => false) ||
  likeMatch (sqlitePattern q) r.id.toList

/-- `searchComponents` from `db.ts`:
`SELECT * FROM metadata_components WHERE name LIKE ? OR id LIKE ? LIMIT 50`,
bound twice to `%query%`; rows come back in storage order, capped at 50. -/
def searchComponents (rows : List Row) (q : String) : List Row :=
  (rows.filter (rowMatches q)).take 50

/-- The specification's qualification criterion for search (stated from the
spec's words, for comparison with `searchComponents`): the term occurs
case-insensitively (ASCII folding, as in SQLite) as a contiguous substring. -/
def substrCI (q s : String) : Prop :=
  (q.toList.map charFold) <:+: (s.toList.map charFold)

instance (q s : String) : Decidable (substrCI q s) :=
  List.decidableInfix _ _

/-- An `ApexClass` / `ApexTrigger` size row (`Id, LengthWithoutComments`). -/
structure SizeRow where
  Id : String
  LengthWithoutComments : Option Int
deriving Repr, DecidableEq

/-- An `ApexCodeCoverageAggregate` row. -/
structure CovRow where
  ApexClassOrTriggerId : String
  NumLinesCovered : Option Nat
  NumLinesUncovered : Option Nat
deriving Repr, DecidableEq

/-- A merged per-component stats record produced by `fetchApexStats`
(`{ id, size?, coverage? }`). -/
structure ApexStatRec where
  id : String
  size : Option Int
  coverage : Option Int
deriving Repr, DecidableEq

/-- The `pct` computation of `fetchApexStats`:
`let pct = 0; if (total > 0) pct = Math.round((covered / total) * 100);`
with double arithmetic idealised as exact rationals. -/
def covPct (covered uncovered : Nat) : Int :=
  let total := covered + uncovered
  if 0 < total then round (((covered : ℚ) / (total : ℚ)) * 100) else 0

/-- One iteration of `processSize` in `fetchApexStats`: records with a falsy
id or a `null`/`undefined` length are skipped; otherwise the map entry is
replaced wholesale by `{ id, size }`. -/
def sizeStep (m : List (String × ApexStatRec)) (r : SizeRow) : List (String × ApexStatRec) :=
  match r.LengthWithoutComments with
  | none => m
  | some len => if r.Id = "" then m else mapSet m r.Id { id := r.Id, size := some len, coverage := none }

/-- One iteration of the coverage loop in `fetchApexStats`: skip falsy ids;
`covered`/`uncovered` default to 0 through `|| 0`; the existing map entry (or
a fresh `{ id }`) gets its `coverage` field set to `pct` — unconditionally,
also when `total` is 0. -/
def covStep (m : List (String × ApexStatRec)) (c : CovRow) : List (String × ApexStatRec) :=
  if c.ApexClassOrTriggerId = "" then m
  else
    let covered := c.NumLinesCovered.getD 0
    let uncovered := c.NumLinesUncovered.getD 0
    let existing := (mapGet m c.ApexClassOrTriggerId).getD
      { id := c.ApexClassOrTriggerId, size := none, coverage := none }
    mapSet m c.ApexClassOrTriggerId { existing with coverage := some (covPct covered uncovered) }

/-- The pure aggregation core of `fetchApexStats`: process the class sizes,
the trigger sizes, then the coverage aggregate rows, and return the map's
values. -/
def fetchApexStatsModel (classes triggers : List SizeRow) (covs : List CovRow) :
    List ApexStatRec :=
  let m0 := classes.foldl sizeStep []
  let m1 := triggers.foldl sizeStep m0
  let m2 := covs.foldl covStep m1
  m2.map Prod.snd

/-- The explicit blocklist of system types skipped by `fetchAllMetadata` and
`fetchAllDependencies`. -/
def blockedTypes : List String :=
  ["User", "Group", "Organization", "DataType", "EntityDefinition"]

/-- Whether `suffix` is a suffix of `t` (JS `typeName.endsWith(suffix)`),
on characters. -/
def strEndsWith (t suffix : String) : Bool :=
  suffix.toList.isSuffixOf t.toList

/-- The type filter shared by `fetchAllMetadata` and `fetchAllDependencies`:
drop the blocklist, drop names ending in History/Share/Feed. -/
def typeAllowed (t : String) : Bool :=
  !(blockedTypes.contains t) &&
  !(strEndsWith t "History") && !(strEndsWith t "Share") && !(strEndsWith t "Feed")

/-- `listMetadata` from `salesforce.ts`: the whole per-type fetch is wrapped
in try/catch and any failure returns `[]`; the parameter `fetch` stands for
the remote call, yielding either the parsed record list or a thrown error. -/
def listMetadataModel {α : Type} (fetch : String → Except String (List α)) (t : String) :
    List α :=
  match fetch t with
  | .ok recs => recs
  | .error _ => []

/-- `fetchDependencies (targetOrg, type)` from `salesforce.ts`: same
catch-to-empty shape as `listMetadata`. -/
def fetchDependenciesModel {α : Type} (fetch : String → Except String (List α)) (t : String) :
    List α :=
  match fetch t with
  | .ok recs => recs
  | .error _ => []

/-- The aggregation core of `fetchAllMetadata`: filter the described types,
fetch each through `listMetadata`, flatten.  (The code pushes a per-type
result only when non-empty and completes the pushes in concurrent completion
order; neither affects the flattened multiset, and the completion barrier
`await Promise.all` returns exactly this flattened list.) -/
def fetchAllMetadataModel {α : Type} (fetch : String → Except String (List α))
    (types : List String) : List α :=
  ((types.filter typeAllowed).map (listMetadataModel fetch)).flatten

/-- The aggregation core of `fetchAllDependencies`: identical batch shape
over `fetchDependencies`. -/
def fetchAllDependenciesModel {α : Type} (fetch : String → Except String (List α))
    (types : List String) : List α :=
  ((types.filter typeAllowed).map (fetchDependenciesModel fetch)).flatten

/-- A response row of `GET /api/dependencies/:id` in LIVE mode. -/
structure DepViewRow where
  id : String
  metadataComponentId : String
  metadataComponentName : Option String
  metadataComponentType : Option String
  metadataComponentSize : Option Int
  metadataComponentCoverage : Option Int
  refMetadataComponentId : String
  refMetadataComponentName : Option String
  refMetadataComponentType : Option String
  refMetadataComponentSize : Option Int
  refMetadataComponentCoverage : Option Int
deriving Repr, DecidableEq

/-- `new Map(db.map(c => [c.id, c]))` followed by `.get(id)`: a Map built
from entries keeps the last entry per key. -/
def compMapGet (rows : List Row) (id : String) : Option Row :=
  (rows.filter (fun r => r.id == id)).getLast?

/-- The per-record mapping of the LIVE branch of `GET /api/dependencies/:id`:
endpoint stats enriched from the local components table when available
(`compMap.get(...) || {}` reads `undefined` fields when absent); the response
id falls back to `` `${src}-${ref}` ``. -/
def viewOf (components : List Row) (dep : DepRecord) : DepViewRow :=
  let s := compMapGet components dep.MetadataComponentId
  let t := compMapGet components dep.RefMetadataComponentId
  { id := (jsOr dep.Id
      (some (dep.MetadataComponentId ++ "-" ++ dep.RefMetadataComponentId))).getD "",
    metadataComponentId := dep.MetadataComponentId,
    metadataComponentName := dep.MetadataComponentName,
    metadataComponentType := dep.MetadataComponentType,
    metadataComponentSize := s.bind Row.size,
    metadataComponentCoverage := s.bind Row.coverage,
    refMetadataComponentId := dep.RefMetadataComponentId,
    refMetadataComponentName := jsOr dep.RefMetadataComponentName
      dep.RefMetadataComponentComponentName,
    refMetadataComponentType := dep.RefMetadataComponentType,
    refMetadataComponentSize := t.bind Row.size,
    refMetadataComponentCoverage := t.bind Row.coverage }

/-- The `GET /api/dependencies/:id` handler from `server.ts`, as a function
of the store, the configured target org, the `?source=local` flag and the
outcome of the remote fetch.  In LIVE mode (`targetOrg` truthy and local not
forced) it maps the remote records through `viewOf` over `getComponents`, or
reports the remote error; the store is returned alongside the response —
no branch performs any write.  The local fallback calls
`getDependenciesForComponent`, which in this variant returns `[]`. -/
def handleDepsForId (st : Store) (targetOrg : Option String) (forceLocal : Bool)
    (remote : Except String (List DepRecord)) :
    Store × Except String (List DepViewRow) :=
  if jsTruthy targetOrg && !forceLocal then
    match remote with
    | .ok records => (st, .ok (records.map (viewOf (getComponents st))))
    | .error e => (st, .error e)
  else
    (st, .ok [])

/-- The `GET /api/components` handler from `server.ts`:
`const q = req.query.q as string || ''` then `searchComponents(q)`
(`||` turns a missing or empty parameter into `""`). -/
def handleComponentsQuery (st : Store) (q : Option String) : List Row :=
  searchComponents st.components ((jsOr q (some "")).getD "")

/-- `repair`'s dangling-id set (the two `SELECT DISTINCT ... LEFT JOIN ...
WHERE ... IS NULL` queries, unioned): edge source ids with no matching
component row, then edge target ids with no matching component row.
Modelled as a list; only membership is consumed (`missingIds.has`). -/
def danglingIds (st : Store) : List String :=
  ((st.deps.map Edge.sourceId).filter (fun s => !hasId st.components s)).dedup ++
  ((st.deps.map Edge.targetId).filter (fun s => !hasId st.components s)).dedup

/-- The referenced-endpoint record as extracted by `repair` (no `||` name
fallback there). -/
def repairRefNode (d : DepRecord) : NodeRec :=
  { id := d.RefMetadataComponentId,
    name := d.RefMetadataComponentName,
    type := d.RefMetadataComponentType }

/-- One iteration of `repair`'s `records.forEach`: conditionally `Map.set`
both endpoints of a fetched dependency record. -/
def repairFoundStep (m : List (String × NodeRec)) (d : DepRecord) : List (String × NodeRec) :=
  let m1 := if d.MetadataComponentId = "" then m else mapSet m d.MetadataComponentId (srcNode d)
  if d.RefMetadataComponentId = "" then m1 else mapSet m1 d.RefMetadataComponentId (repairRefNode d)

/-- `foundComponentsMap` after all (sequentially processed) batches: the
fold of every endpoint record seen in the by-id query responses.  `fetched`
is the concatenation of the per-chunk responses, in order. -/
def repairFound (fetched : List DepRecord) : List (String × NodeRec) :=
  fetched.foldl repairFoundStep []

/-- `repair`'s `actuallyMissing`: the found components filtered to those
whose id was in the originally-missing set
(`componentsToInsert.filter(c => missingIds.has(c.id))`). -/
def actuallyMissing (st : Store) (fetched : List DepRecord) : List NodeRec :=
  ((repairFound fetched).map Prod.snd).filter (fun c => (danglingIds st).contains c.id)

/-- The store effect of one `repair` run: nothing when no id is missing
(early return), otherwise insert the actually-missing components (the
`actuallyMissing.length > 0` guard is immaterial to the store since
inserting an empty batch changes nothing, but is kept). -/
def repairRun (st : Store) (fetched : List DepRecord) : Store :=
  if (danglingIds st).isEmpty then st
  else if (actuallyMissing st fetched).length > 0 then
    insertComponents (actuallyMissing st fetched) st
  else st

/-- Claim-statement vocabulary: all endpoint mentions of id `A` in a batch of
dependency records, in the order `insertDependencies` processes them (a
record's source mention precedes its referenced mention). -/
def mentionsOf (A : String) (deps : List DepRecord) : List NodeRec :=
  deps.flatMap (fun d =>
    (if d.MetadataComponentId = A then [srcNode d] else []) ++
    (if d.RefMetadataComponentId = A then [refNode d] else []))

/-! ## Infrastructure lemmas -/

theorem mapGet_mapSet {β : Type} (m : List (String × β)) (k k' : String) (v : β) :
    mapGet (mapSet m k' v) k = if k' = k then some v else mapGet m k := by
  induction m with
  | nil =>
    by_cases h : k' = k
    · subst h; simp [mapGet, mapSet, List.find?]
    · have hb : (k' == k) = false := by simp [h]
      simp [mapGet, mapSet, List.find?, hb, h]
  | cons e rest ih =>
    obtain ⟨k₀, v₀⟩ := e
    by_cases h0 : k₀ = k'
    · subst h0
      by_cases h : k₀ = k <;> simp [mapGet, mapSet, List.find?_cons, h]
    · by_cases h : k₀ = k
      · subst h
        have hne : k' ≠ k₀ := fun hh => h0 hh.symm
        simp [mapGet, mapSet, List.find?_cons, h0, hne]
      · simpa [mapGet, mapSet, List.find?_cons, h0, h] using ih

theorem mapSet_forall {β : Type} {P : String × β → Prop} {m : List (String × β)}
    {k : String} {v : β} (hm : ∀ e ∈ m, P e) (hv : P (k, v)) :
    ∀ e ∈ mapSet m k v, P e := by
  induction m with
  | nil => simpa [mapSet] using hv
  | cons e0 rest ih =>
    obtain ⟨k₀, v₀⟩ := e0
    by_cases h0 : k₀ = k
    · subst h0
      intro e he
      simp only [mapSet, if_pos rfl] at he
      rcases List.mem_cons.1 he with rfl | hmem
      · exact hv
      · exact hm _ (List.mem_cons_of_mem _ hmem)
    · intro e he
      simp only [mapSet, if_neg h0] at he
      rcases List.mem_cons.1 he with rfl | hmem
      · exact hm _ (List.mem_cons_self _ _)
      · exact ih (fun x hx => hm x (List.mem_cons_of_mem _ hx)) e hmem

theorem find?_congr_mem {α : Type} {p q : α → Bool} :
    ∀ {l : List α}, (∀ x ∈ l, p x = q x) → l.find? p = l.find? q := by
  intro l
  induction l with
  | nil => intro _; rfl
  | cons a l ih =>
    intro h
    have ha := h a (List.mem_cons_self _ _)
    simp only [List.find?_cons, ha]
    cases q a with
    | true => rfl
    | false => exact ih (fun x hx => h x (List.mem_cons_of_mem _ hx))

theorem lookupRow_map {f : Row → Row} (hf : ∀ r, (f r).id = r.id)
    (rows : List Row) (A : String) :
    lookupRow (rows.map f) A = (lookupRow rows A).map f := by
  unfold lookupRow
  rw [List.find?_map]
  have : ((fun r : Row => r.id == A) ∘ f) = fun r : Row => r.id == A := by
    funext r
    simp [Function.comp, hf r]
  rw [this]

/-- The per-item UPDATE of `updateComponentStats` preserves every row id. -/
theorem updateStatsRow_id (item : StatRec) : ∀ r : Row,
    (if r.id = item.id then
       { r with size := coalesce item.size r.size,
                coverage := coalesce item.coverage r.coverage }
     else r).id = r.id := by
  intro r
  by_cases h : r.id = item.id <;> simp [h]

theorem updateStatsRows_single (item : StatRec) (rows : List Row)
    (h : item.id ≠ "") :
    updateComponentStatsRows [item] rows =
      rows.map (fun r =>
        if r.id = item.id then
          { r with size := coalesce item.size r.size,
                   coverage := coalesce item.coverage r.coverage }
        else r) := by
  simp [updateComponentStatsRows, h]

theorem updateStatsRows_lookup (stats : List StatRec) (rows : List Row) (A : String) :
    lookupRow rows A = none →
      lookupRow (updateComponentStatsRows stats rows) A = none := by
  induction stats generalizing rows with
  | nil => intro h; exact h
  | cons item rest ih =>
    intro h
    have hstep : updateComponentStatsRows (item :: rest) rows =
        updateComponentStatsRows rest
          (if item.id = "" then rows
           else rows.map (fun r =>
             if r.id = item.id then
               { r with size := coalesce item.size r.size,
                        coverage := coalesce item.coverage r.coverage }
             else r)) := rfl
    rw [hstep]
    by_cases hid : item.id = ""
    · rw [if_pos hid]; exact ih rows h
    · rw [if_neg hid]
      refine ih _ ?_
      rw [lookupRow_map (updateStatsRow_id item), h]
      rfl

theorem covPct_pos (c u : ℕ) (h : 0 < c + u) :
    covPct c u = round (((c : ℚ) / ((c : ℚ) + (u : ℚ))) * 100) := by
  simp only [covPct, h, if_true]
  push_cast
  ring_nf

theorem covPct_zero (c u : ℕ) (h : c + u = 0) : covPct c u = 0 := by
  simp [covPct, h]

/-! ## Claim C1: edge-upsert idempotence -/

/-- C1, counterexample: inserting the edge `("A","B")` twice into an empty
store leaves **two** `("A","B")` rows in `metadata_dependencies`, not one —
`insertDependencyEdges` uses a plain `INSERT` and the table has no
uniqueness constraint on the pair, so nothing is ignored on re-insertion. -/
theorem insertDependencyEdges_duplicate_pair :
    ((insertDependencyEdges [{ sourceId := "A", targetId := "B" }]
        (insertDependencyEdges [{ sourceId := "A", targetId := "B" }]
          { components := [], deps := [] })).deps.count
      { sourceId := "A", targetId := "B" }) = 2 := by
  decide

/-- C1, amended: for every pair of non-empty ids `(A,B)` and every prior
store state, each call to `insertDependencyEdges` with the record
`{sourceId: A, targetId: B}` unconditionally appends one more `(A,B)` row;
after calling it twice the table holds two more `(A,B)` rows than before
(duplicates accumulate — there is no conflict-ignore). -/
theorem insertDependencyEdges_append_count (A B : String) (st : Store)
    (hA : A ≠ "") (hB : B ≠ "") :
    ((insertDependencyEdges [{ sourceId := A, targetId := B }]
        (insertDependencyEdges [{ sourceId := A, targetId := B }] st)).deps.count
      { sourceId := A, targetId := B }) =
      st.deps.count { sourceId := A, targetId := B } + 2 := by
  have ha : (A != "") = true := by simp [hA]
  have hb : (B != "") = true := by simp [hB]
  simp [insertDependencyEdges, List.count_append, List.filter, ha, hb,
    List.count_cons, List.count_nil]

theorem insertDependencyEdges_append_count_witness :
    ("A" : String) ≠ "" ∧ ("B" : String) ≠ "" ∧
    ((insertDependencyEdges [{ sourceId := "A", targetId := "B" }]
        (insertDependencyEdges [{ sourceId := "A", targetId := "B" }]
          { components := [⟨"A", none, none, none, none⟩], deps := [] })).deps.count
      { sourceId := "A", targetId := "B" }) =
      (({ components := [⟨"A", none, none, none, none⟩], deps := [] } : Store)).deps.count
        { sourceId := "A", targetId := "B" } + 2 :=
  ⟨by decide, by decide,
    insertDependencyEdges_append_count "A" "B"
      { components := [⟨"A", none, none, none, none⟩], deps := [] }
      (by decide) (by decide)⟩

/-! ## Claim C2: coverage percentage -/

/-- C2, counterexample: a coverage aggregate row whose covered and uncovered
line counts are both 0 (denominator 0) does **not** omit the coverage field:
the produced record carries `coverage = 0` (`let pct = 0` is assigned
unconditionally). -/
theorem covStep_zero_total_sets_zero :
    fetchApexStatsModel [] []
      [{ ApexClassOrTriggerId := "X", NumLinesCovered := some 0,
         NumLinesUncovered := some 0 }] =
      [{ id := "X", size := none, coverage := some 0 }] := by
  decide

/-- C2, amended: for every coverage aggregate row processed by
`fetchApexStats` (with a truthy id), the record stored for that id afterwards
has its coverage set: to `round(covered / (covered+uncovered) * 100)` when
the denominator is positive, and to `0` (present, not omitted) when the
denominator is zero.  `covered`/`uncovered` are the row's counts defaulted
to 0 by `|| 0`. -/
theorem covStep_coverage_spec (m : List (String × ApexStatRec)) (c : CovRow)
    (h : c.ApexClassOrTriggerId ≠ "") :
    ∃ rec, mapGet (covStep m c) c.ApexClassOrTriggerId = some rec ∧
      (0 < c.NumLinesCovered.getD 0 + c.NumLinesUncovered.getD 0 →
        rec.coverage = some (round (((c.NumLinesCovered.getD 0 : ℚ) /
          ((c.NumLinesCovered.getD 0 : ℚ) + (c.NumLinesUncovered.getD 0 : ℚ))) * 100))) ∧
      (c.NumLinesCovered.getD 0 + c.NumLinesUncovered.getD 0 = 0 →
        rec.coverage = some 0) := by
  have hstep : mapGet (covStep m c) c.ApexClassOrTriggerId =
      some { (mapGet m c.ApexClassOrTriggerId).getD
               { id := c.ApexClassOrTriggerId, size := none, coverage := none } with
             coverage := some (covPct (c.NumLinesCovered.getD 0)
               (c.NumLinesUncovered.getD 0)) } := by
    simp only [covStep, if_neg h]
    rw [mapGet_mapSet]
    simp
  refine ⟨_, hstep, ?_, ?_⟩
  · intro hpos
    simp [covPct_pos _ _ hpos]
  · intro hzero
    simp [covPct_zero _ _ hzero]

theorem covStep_coverage_spec_witness :
    ∃ rec, mapGet (covStep []
        { ApexClassOrTriggerId := "X", NumLinesCovered := some 3,
          NumLinesUncovered := some 1 }) "X" = some rec ∧
      (0 < (3 : ℕ) + (1 : ℕ) →
        rec.coverage = some (round (((3 : ℕ) : ℚ) /
          (((3 : ℕ) : ℚ) + ((1 : ℕ) : ℚ)) * 100))) ∧
      ((3 : ℕ) + (1 : ℕ) = 0 → rec.coverage = some 0) := by
  exact covStep_coverage_spec []
    { ApexClassOrTriggerId := "X", NumLinesCovered := some 3,
      NumLinesUncovered := some 1 } (by decide)

/-! ## Claim C3: coalesce update semantics -/

theorem updateStatsRows_existing (st : Store) (item : StatRec) (r : Row)
    (hid : item.id ≠ "") (hr : lookupRow st.components item.id = some r) :
    lookupRow (updateComponentStats [item] st).components item.id =
      some { r with size := coalesce item.size r.size,
                    coverage := coalesce item.coverage r.coverage } := by
  show lookupRow (updateComponentStatsRows [item] st.components) item.id = _
  rw [updateStatsRows_single item st.components hid,
    lookupRow_map (updateStatsRow_id item), hr]
  have : r.id = item.id := by
    have := List.find?_some hr
    simpa [lookupRow] using this
  simp [this]

/-- C3: `updateComponentStats` follows coalesce semantics.  (i) For an id
with an existing row, an update item overwrites `size`/`coverage` only with
non-null incoming values (`COALESCE(@new, old)`); (ii) an id with no
existing row stays absent for any batch — the UPDATE creates no row; (iii)
in particular, applying `(size=10, coverage=null)` then
`(size=null, coverage=80)` leaves the stored row with `size=10`,
`coverage=80`. -/
theorem updateComponentStats_coalesce_spec (st : Store) (stats : List StatRec)
    (item : StatRec) (A B : String) (r : Row) :
    (item.id ≠ "" → lookupRow st.components item.id = some r →
      lookupRow (updateComponentStats [item] st).components item.id =
        some { r with size := coalesce item.size r.size,
                      coverage := coalesce item.coverage r.coverage }) ∧
    (lookupRow st.components A = none →
      lookupRow (updateComponentStats stats st).components A = none) ∧
    (B ≠ "" → lookupRow st.components B = some r →
      lookupRow (updateComponentStats [{ id := B, size := none, coverage := some 80 }]
          (updateComponentStats [{ id := B, size := some 10, coverage := none }] st)).components B =
        some { r with size := some 10, coverage := some 80 }) := by
  refine ⟨updateStatsRows_existing st item r, ?_, ?_⟩
  · exact updateStatsRows_lookup stats st.components A
  · intro hB hr
    have h1 := updateStatsRows_existing st
      { id := B, size := some 10, coverage := none } r hB hr
    have h2 := updateStatsRows_existing
      (updateComponentStats [{ id := B, size := some 10, coverage := none }] st)
      { id := B, size := none, coverage := some 80 } _ hB h1
    simpa [coalesce] using h2

theorem updateComponentStats_coalesce_spec_witness :
    (lookupRow (updateComponentStats [{ id := "X", size := some 7, coverage := none }]
        { components := [⟨"X", some "n", none, some 1, some 2⟩], deps := [] }).components "X" =
      some { id := "X", name := some "n", type := none,
             size := coalesce (some 7) (some 1), coverage := coalesce none (some 2) }) ∧
    (lookupRow (updateComponentStats [{ id := "Y", size := some 7, coverage := none }]
        { components := [⟨"X", some "n", none, some 1, some 2⟩], deps := [] }).components "Y" = none) ∧
    (lookupRow (updateComponentStats [{ id := "X", size := none, coverage := some 80 }]
          (updateComponentStats [{ id := "X", size := some 10, coverage := none }]
            { components := [⟨"X", some "n", none, some 1, some 2⟩], deps := [] })).components "X" =
      some { id := "X", name := some "n", type := none,
             size := some 10, coverage := some 80 }) := by
  have h := updateComponentStats_coalesce_spec
    { components := [⟨"X", some "n", none, some 1, some 2⟩], deps := [] }
    [{ id := "Y", size := some 7, coverage := none }]
    { id := "X", size := some 7, coverage := none }
    "Y" "X" ⟨"X", some "n", none, some 1, some 2⟩
  exact ⟨h.1 (by decide) (by decide), h.2.1 (by decide), h.2.2 (by decide) (by decide)⟩

/-! ## Insert-row infrastructure shared by C4, C5 and C9 -/

theorem lookupRow_append (l₁ l₂ : List Row) (A : String) :
    lookupRow (l₁ ++ l₂) A = (lookupRow l₁ A).or (lookupRow l₂ A) := by
  unfold lookupRow
  exact List.find?_append

theorem lookupRow_eq_none_iff (rows : List Row) (A : String) :
    lookupRow rows A = none ↔ ∀ r ∈ rows, r.id ≠ A := by
  unfold lookupRow
  rw [List.find?_eq_none]
  simp

theorem hasId_iff_exists (rows : List Row) (A : String) :
    hasId rows A = true ↔ ∃ r ∈ rows, r.id = A := by
  unfold hasId
  rw [List.any_eq_true]
  simp

/-- One step of the `insertComponents` fold, named for rewriting. -/
theorem insertRows_cons (c : NodeRec) (rest : List NodeRec) (rows : List Row) :
    insertComponentsRows (c :: rest) rows =
      insertComponentsRows rest
        (if c.id = "" then rows
         else if hasId rows c.id then rows else rows ++ [toRow c]) := rfl

/-- Where a primary-key lookup lands after a batch insert: an existing row is
untouched (INSERT OR IGNORE), and an id previously absent gets the row of the
*first* batch record carrying it (later duplicates in the batch hit the
conflict-ignore as well). -/
theorem lookupRow_insertRows (A : String) (hA : A ≠ "") :
    ∀ (comps : List NodeRec) (rows : List Row),
      lookupRow (insertComponentsRows comps rows) A =
        match lookupRow rows A with
        | some r => some r
        | none => (comps.find? (fun c => c.id == A)).map toRow := by
  intro comps
  induction comps with
  | nil =>
    intro rows
    cases h : lookupRow rows A <;> simp [insertComponentsRows, h]
  | cons c rest ih =>
    intro rows
    rw [insertRows_cons, ih]
    by_cases hcid : c.id = ""
    · have hne : (c.id == A) = false := by
        rw [hcid]
        simp only [beq_eq_false_iff_ne]
        exact fun h => hA h.symm
      rw [if_pos hcid]
      cases h : lookupRow rows A <;> simp [h, List.find?_cons, hne]
    · by_cases hhas : hasId rows c.id
      · rw [if_neg hcid, if_pos hhas]
        cases h : lookupRow rows A with
        | some r => simp [h]
        | none =>
          have hne : c.id ≠ A := by
            intro he
            obtain ⟨r, hr, hrid⟩ := (hasId_iff_exists rows c.id).1 hhas
            exact ((lookupRow_eq_none_iff rows A).1 h r hr) (he ▸ hrid)
          have hne' : (c.id == A) = false := by simp [hne]
          simp [h, List.find?_cons, hne']
      · rw [if_neg hcid, if_neg hhas]
        rw [lookupRow_append]
        cases h : lookupRow rows A with
        | some r => simp [h]
        | none =>
          by_cases hca : c.id = A
          · have hb : ((toRow c).id == A) = true := by simp [toRow, hca]
            have hl : lookupRow [toRow c] A = some (toRow c) := by
              unfold lookupRow
              rw [List.find?_cons, hb]
            have hb' : (c.id == A) = true := by simp [hca]
            rw [hl]
            simp [List.find?_cons, hb']
          · have hb : ((toRow c).id == A) = false := by simp [toRow, hca]
            have hl : lookupRow [toRow c] A = none := by
              unfold lookupRow
              rw [List.find?_cons, hb]
              rfl
            have hb' : (c.id == A) = false := by simp [hca]
            rw [hl]
            simp [List.find?_cons, hb']

/-- An existing row is never modified by a batch insert (INSERT OR IGNORE):
lookups that already succeed keep their result. -/
theorem lookupRow_insertRows_some {A : String} {r : Row} :
    ∀ (comps : List NodeRec) (rows : List Row),
      lookupRow rows A = some r →
      lookupRow (insertComponentsRows comps rows) A = some r := by
  intro comps
  induction comps with
  | nil => intro rows h; exact h
  | cons c rest ih =>
    intro rows h
    rw [insertRows_cons]
    refine ih _ ?_
    by_cases h1 : c.id = ""
    · rw [if_pos h1]; exact h
    · rw [if_neg h1]
      by_cases h2 : hasId rows c.id
      · rw [if_pos h2]; exact h
      · rw [if_neg h2, lookupRow_append, h]
        rfl

/-- Batch inserts only add rows coming from the batch. -/
theorem insertRows_mem {r : Row} :
    ∀ (comps : List NodeRec) (rows : List Row),
      r ∈ insertComponentsRows comps rows → r ∈ rows ∨ ∃ c ∈ comps, r = toRow c := by
  intro comps
  induction comps with
  | nil => intro rows h; exact Or.inl h
  | cons c rest ih =>
    intro rows h
    rw [insertRows_cons] at h
    rcases ih _ h with hr | ⟨c', hc', rfl⟩
    · by_cases h1 : c.id = ""
      · rw [if_pos h1] at hr; exact Or.inl hr
      · rw [if_neg h1] at hr
        by_cases h2 : hasId rows c.id
        · rw [if_pos h2] at hr; exact Or.inl hr
        · rw [if_neg h2] at hr
          rcases List.mem_append.1 hr with hr | hr
          · exact Or.inl hr
          · exact Or.inr ⟨c, List.mem_cons_self _ _, by
              simpa using (List.mem_singleton.1 hr)⟩
    · exact Or.inr ⟨c', List.mem_cons_of_mem _ hc', rfl⟩

/-- Batch inserts preserve uniqueness of ids. -/
theorem insertRows_nodup :
    ∀ (comps : List NodeRec) (rows : List Row),
      (rows.map Row.id).Nodup → ((insertComponentsRows comps rows).map Row.id).Nodup := by
  intro comps
  induction comps with
  | nil => intro rows h; exact h
  | cons c rest ih =>
    intro rows h
    rw [insertRows_cons]
    refine ih _ ?_
    by_cases h1 : c.id = ""
    · rw [if_pos h1]; exact h
    · rw [if_neg h1]
      by_cases h2 : hasId rows c.id
      · rw [if_pos h2]; exact h
      · rw [if_neg h2]
        rw [List.map_append]
        rw [List.nodup_append]
        refine ⟨h, by simp, ?_⟩
        intro x hx hx2
        have hxc : x = c.id := by simpa [toRow] using hx2
        subst hxc
        obtain ⟨r, hr, hrid⟩ := List.mem_map.1 hx
        exact absurd ((hasId_iff_exists rows c.id).2 ⟨r, hr, hrid⟩) (by simpa using h2)

/-! ## Claim C4: node upsert (first writer wins) -/

/-- C4: `insertComponents` upsert semantics.  (i) A record with an empty id
is skipped entirely; (ii) a record whose id has no stored row is inserted
(with NULL stats); (iii) for an id that already has a row, any batch leaves
that row untouched — first writer wins; (iv) uniqueness of ids is preserved
by every call, so the table keeps at most one row per id. -/
theorem insertComponents_upsert_spec (st : Store) (c d : NodeRec)
    (rest comps : List NodeRec) (A : String) (r : Row) :
    (c.id = "" → insertComponents (c :: rest) st = insertComponents rest st) ∧
    (d.id ≠ "" → lookupRow st.components d.id = none →
      lookupRow (insertComponents [d] st).components d.id = some (toRow d)) ∧
    (lookupRow st.components A = some r →
      lookupRow (insertComponents comps st).components A = some r) ∧
    ((st.components.map Row.id).Nodup →
      ((insertComponents comps st).components.map Row.id).Nodup) := by
  refine ⟨?_, ?_, ?_, ?_⟩
  · intro hc
    show ({ st with components := insertComponentsRows (c :: rest) st.components } : Store) = _
    rw [insertRows_cons, if_pos hc]
    rfl
  · intro hd habs
    show lookupRow (insertComponentsRows [d] st.components) d.id = _
    rw [lookupRow_insertRows d.id hd, habs]
    simp [List.find?_cons]
  · intro hr
    exact lookupRow_insertRows_some comps st.components hr
  · intro h
    exact insertRows_nodup comps st.components h

theorem insertComponents_upsert_spec_witness :
    (insertComponents [{ id := "", name := some "x", type := none },
        { id := "C", name := some "c", type := none }]
      { components := [⟨"A", some "a", some "T", none, none⟩], deps := [] } =
     insertComponents [{ id := "C", name := some "c", type := none }]
      { components := [⟨"A", some "a", some "T", none, none⟩], deps := [] }) ∧
    (lookupRow (insertComponents [{ id := "B", name := some "b", type := none }]
        { components := [⟨"A", some "a", some "T", none, none⟩], deps := [] }).components "B" =
      some (toRow { id := "B", name := some "b", type := none })) ∧
    (lookupRow (insertComponents
        [{ id := "A", name := some "z", type := none },
         { id := "D", name := some "d", type := none }]
        { components := [⟨"A", some "a", some "T", none, none⟩], deps := [] }).components "A" =
      some ⟨"A", some "a", some "T", none, none⟩) ∧
    ((insertComponents
        [{ id := "A", name := some "z", type := none },
         { id := "D", name := some "d", type := none }]
        { components := [⟨"A", some "a", some "T", none, none⟩], deps := [] }).components.map
      Row.id).Nodup := by
  have h := insertComponents_upsert_spec
    { components := [⟨"A", some "a", some "T", none, none⟩], deps := [] }
    { id := "", name := some "x", type := none }
    { id := "B", name := some "b", type := none }
    [{ id := "C", name := some "c", type := none }]
    [{ id := "A", name := some "z", type := none },
     { id := "D", name := some "d", type := none }]
    "A" ⟨"A", some "a", some "T", none, none⟩
  exact ⟨h.1 rfl, h.2.1 (by decide) (by decide), h.2.2.1 (by decide), h.2.2.2 (by decide)⟩

/-! ## Claim C5: repair inserts only originally-dangling ids -/

theorem contains_iff_mem {l : List String} {a : String} :
    l.contains a = true ↔ a ∈ l := by
  simp [List.contains]

/-- C5: a `repair` run inserts into `metadata_components` only ids from the
originally-dangling set.  (i) Any id absent before the run and present after
it belongs to `danglingIds` (the union of dangling edge source and target
ids); (ii) an endpoint record extracted from the by-id query responses whose
id was not originally missing is filtered out of `actuallyMissing` and hence
never inserted. -/
theorem repairRun_only_dangling (st : Store) (fetched : List DepRecord)
    (A : String) (c : NodeRec) :
    (lookupRow st.components A = none →
      lookupRow (repairRun st fetched).components A ≠ none →
      A ∈ danglingIds st) ∧
    (c ∈ (repairFound fetched).map Prod.snd →
      c.id ∉ danglingIds st →
      c ∉ actuallyMissing st fetched) := by
  constructor
  · intro habs hins
    unfold repairRun at hins
    by_cases he : (danglingIds st).isEmpty = true
    · rw [if_pos he] at hins
      exact absurd habs hins
    · rw [if_neg he] at hins
      by_cases hlen : (actuallyMissing st fetched).length > 0
      · rw [if_pos hlen] at hins
        obtain ⟨r, hr⟩ := Option.ne_none_iff_exists'.1 hins
        have hr' : List.find? (fun r => r.id == A)
            (insertComponentsRows (actuallyMissing st fetched) st.components) = some r := hr
        have hmem := List.mem_of_find?_eq_some hr'
        have hrid : r.id = A := by simpa using List.find?_some hr'
        rcases insertRows_mem _ _ hmem with hold | ⟨c', hc', rfl⟩
        · exact absurd hrid ((lookupRow_eq_none_iff _ _).1 habs r hold)
        · have hfl := (List.mem_filter.1 hc').2
          have : c'.id ∈ danglingIds st := contains_iff_mem.1 hfl
          have hco : c'.id = A := hrid
          rwa [hco] at this
      · rw [if_neg hlen] at hins
        exact absurd habs hins
  · intro hmem hnot hcontra
    exact hnot (contains_iff_mem.1 (List.mem_filter.1 hcontra).2)

theorem repairRun_only_dangling_witness :
    (("C" : String) ∈ danglingIds
      { components := [⟨"A", some "a", some "T", none, none⟩],
        deps := [{ sourceId := "A", targetId := "C" }] }) ∧
    ({ id := "A", name := some "a", type := some "T" } : NodeRec) ∉
      actuallyMissing
        { components := [⟨"A", some "a", some "T", none, none⟩],
          deps := [{ sourceId := "A", targetId := "C" }] }
        [{ Id := none, MetadataComponentId := "A", MetadataComponentName := some "a",
           MetadataComponentType := some "T", RefMetadataComponentId := "C",
           RefMetadataComponentName := some "c",
           RefMetadataComponentComponentName := none,
           RefMetadataComponentType := some "U" }] := by
  have h := repairRun_only_dangling
    { components := [⟨"A", some "a", some "T", none, none⟩],
      deps := [{ sourceId := "A", targetId := "C" }] }
    [{ Id := none, MetadataComponentId := "A", MetadataComponentName := some "a",
       MetadataComponentType := some "T", RefMetadataComponentId := "C",
       RefMetadataComponentName := some "c",
       RefMetadataComponentComponentName := none,
       RefMetadataComponentType := some "U" }]
    "C" { id := "A", name := some "a", type := some "T" }
  exact ⟨h.1 (by decide) (by decide), h.2 (by decide) (by decide)⟩

/-! ## Claim C6: per-type failure tolerance of the harvest batches -/

/-- C6: if exactly one harvested type's fetch fails (and every other valid
type's fetch succeeds), both `fetchAllMetadata` and `fetchAllDependencies`
still produce a (total, non-failing) result that is the flattened union of
the other types' records, with only the failed type contributing nothing:
the per-type try/catch turns the failure into an empty per-type result. -/
theorem fetchAll_partial_failure {α β : Type} (types : List String)
    (fetchM : String → Except String (List α)) (fetchD : String → Except String (List β))
    (t₀ : String) (eM eD : String) (recsM : String → List α) (recsD : String → List β)
    (hM0 : fetchM t₀ = .error eM) (hM : ∀ t, t ≠ t₀ → fetchM t = .ok (recsM t))
    (hD0 : fetchD t₀ = .error eD) (hD : ∀ t, t ≠ t₀ → fetchD t = .ok (recsD t)) :
    fetchAllMetadataModel fetchM types =
      ((types.filter typeAllowed).map (fun t => if t = t₀ then [] else recsM t)).flatten ∧
    fetchAllDependenciesModel fetchD types =
      ((types.filter typeAllowed).map (fun t => if t = t₀ then [] else recsD t)).flatten := by
  constructor
  · unfold fetchAllMetadataModel
    congr 1
    apply List.map_congr_left
    intro t _
    by_cases h : t = t₀
    · subst h
      simp [listMetadataModel, hM0]
    · simp [listMetadataModel, hM t h, h]
  · unfold fetchAllDependenciesModel
    congr 1
    apply List.map_congr_left
    intro t _
    by_cases h : t = t₀
    · subst h
      simp [fetchDependenciesModel, hD0]
    · simp [fetchDependenciesModel, hD t h, h]

theorem fetchAll_partial_failure_witness :
    fetchAllMetadataModel
        (fun t => if t = "B" then Except.error "boom" else Except.ok [(1 : ℕ)])
        ["A", "B", "CustomObject"] =
      ((["A", "B", "CustomObject"].filter typeAllowed).map
        (fun t => if t = "B" then ([] : List ℕ) else [1])).flatten ∧
    fetchAllDependenciesModel
        (fun t => if t = "B" then Except.error "bust" else Except.ok [(2 : ℕ)])
        ["A", "B", "CustomObject"] =
      ((["A", "B", "CustomObject"].filter typeAllowed).map
        (fun t => if t = "B" then ([] : List ℕ) else [2])).flatten := by
  exact fetchAll_partial_failure ["A", "B", "CustomObject"]
    (fun t => if t = "B" then Except.error "boom" else Except.ok [(1 : ℕ)])
    (fun t => if t = "B" then Except.error "bust" else Except.ok [(2 : ℕ)])
    "B" "boom" "bust" (fun _ => [1]) (fun _ => [2])
    (by simp) (fun t ht => by simp [ht]) (by simp) (fun t ht => by simp [ht])

/-! ## Claim C8: LIVE-mode dependency resolution performs no store write -/

/-- C8: the `GET /api/dependencies/:id` handler in LIVE mode (a target org
configured and local mode not forced) never mutates the store: for every
prior store state and every remote outcome — success or failure — the store
returned alongside the response is exactly the input store; only reads
(`getComponents`) feed the response. -/
theorem handleDepsForId_no_write (st : Store) (targetOrg : Option String)
    (forceLocal : Bool) (remote : Except String (List DepRecord))
    (h1 : jsTruthy targetOrg = true) (h2 : forceLocal = false) :
    (handleDepsForId st targetOrg forceLocal remote).1 = st := by
  subst h2
  cases remote <;> simp [handleDepsForId, h1]

theorem handleDepsForId_no_write_witness :
    (handleDepsForId
      { components := [⟨"A", some "a", some "T", some 3, some 80⟩], deps := [] }
      (some "myorg") false (Except.error "network down")).1 =
    { components := [⟨"A", some "a", some "T", some 3, some 80⟩], deps := [] } :=
  handleDepsForId_no_write
    { components := [⟨"A", some "a", some "T", some 3, some 80⟩], deps := [] }
    (some "myorg") false (Except.error "network down") (by decide) rfl

/-! ## LIKE-matching infrastructure for C7 and C10 -/

theorem likeMatch_percent_cons (p : List Char) (c : Char) (s' : List Char) :
    likeMatch ('%' :: p) (c :: s') =
      (likeMatch p (c :: s') || likeMatch ('%' :: p) s') := by
  conv_lhs => rw [likeMatch.eq_def]
  simp

theorem likeMatch_percent_nil (p : List Char) :
    likeMatch ('%' :: p) [] = likeMatch p [] := by
  conv_lhs => rw [likeMatch.eq_def]
  simp

theorem likeMatch_plain_cons (a : Char) (p : List Char) (c : Char) (s' : List Char)
    (ha : a ≠ '%') :
    likeMatch (a :: p) (c :: s') =
      ((a == '_' || charFold a == charFold c) && likeMatch p s') := by
  conv_lhs => rw [likeMatch.eq_def]
  simp [ha]

theorem likeMatch_plain_nil (a : Char) (p : List Char) (ha : a ≠ '%') :
    likeMatch (a :: p) [] = false := by
  conv_lhs => rw [likeMatch.eq_def]
  simp [ha]

theorem likeMatch_nil (s : List Char) : likeMatch [] s = s.isEmpty := by
  conv_lhs => rw [likeMatch.eq_def]

/-- A bare `%` pattern matches everything. -/
theorem likeMatch_nil_percent (s : List Char) : likeMatch ['%'] s = true := by
  induction s with
  | nil => rw [likeMatch_percent_nil, likeMatch_nil]; rfl
  | cons c s' ih =>
    rw [likeMatch_percent_cons, ih, likeMatch_nil]
    simp

/-- Consuming a leading `%`: some suffix of the subject matches the rest. -/
theorem likeMatch_percent_iff (p s : List Char) :
    likeMatch ('%' :: p) s = true ↔ ∃ n, likeMatch p (s.drop n) = true := by
  induction s with
  | nil =>
    rw [likeMatch_percent_nil]
    constructor
    · intro h; exact ⟨0, h⟩
    · rintro ⟨n, h⟩; simpa using h
  | cons c s' ih =>
    rw [likeMatch_percent_cons, Bool.or_eq_true, ih]
    constructor
    · rintro (h | ⟨n, h⟩)
      · exact ⟨0, h⟩
      · exact ⟨n + 1, h⟩
    · rintro ⟨n, h⟩
      cases n with
      | zero => exact Or.inl h
      | succ n => exact Or.inr ⟨n, h⟩

/-- A wildcard-free pattern followed by `%` matches exactly when some prefix
of the subject case-folds to the pattern. -/
theorem likeMatch_plain_iff :
    ∀ (q : List Char), (∀ c ∈ q, c ≠ '%' ∧ c ≠ '_') →
    ∀ s : List Char, likeMatch (q ++ ['%']) s = true ↔
      ∃ n, n ≤ s.length ∧ (s.take n).map charFold = q.map charFold := by
  intro q
  induction q with
  | nil =>
    intro _ s
    simp only [List.nil_append, List.map_nil, likeMatch_nil_percent]
    constructor
    · intro _
      exact ⟨0, Nat.zero_le _, by simp⟩
    · intro _
      trivial
  | cons a q' ih =>
    intro hq s
    have ha := hq a (List.mem_cons_self _ _)
    have hq' : ∀ c ∈ q', c ≠ '%' ∧ c ≠ '_' :=
      fun c hc => hq c (List.mem_cons_of_mem _ hc)
    cases s with
    | nil =>
      rw [List.cons_append, likeMatch_plain_nil _ _ ha.1]
      constructor
      · intro h; exact absurd h (by simp)
      · rintro ⟨n, hn, hmap⟩
        simp only [List.length_nil, Nat.le_zero] at hn
        subst hn
        simp at hmap
    | cons c s' =>
      rw [List.cons_append, likeMatch_plain_cons _ _ _ _ ha.1]
      have hu : (a == '_') = false := by simp [ha.2]
      rw [hu, Bool.false_or, Bool.and_eq_true, beq_iff_eq, ih hq' s']
      constructor
      · rintro ⟨hfold, m, hm, hmap⟩
        refine ⟨m + 1, by simpa using hm, ?_⟩
        simp [hmap, hfold]
      · rintro ⟨n, hn, hmap⟩
        cases n with
        | zero => simp at hmap
        | succ m =>
          simp only [List.take_succ_cons, List.map_cons, List.cons.injEq] at hmap
          exact ⟨hmap.1.symm, m, by simpa using hn, hmap.2⟩

theorem infix_iff_drop_take {γ : Type} (l₁ l₂ : List γ) :
    l₁ <:+: l₂ ↔ ∃ n m, (l₂.drop n).take m = l₁ := by
  constructor
  · rintro ⟨s, t, rfl⟩
    refine ⟨s.length, l₁.length, ?_⟩
    rw [List.append_assoc, List.drop_left, List.take_left]
  · rintro ⟨n, m, rfl⟩
    exact ((List.take_prefix m _).isInfix).trans ((List.drop_suffix n l₂).isInfix)

/-- For a wildcard-free term, the `%term%` LIKE pattern matches exactly the
case-insensitive-substring relation. -/
theorem likeMatch_substr_iff (q s : List Char) (hq : ∀ c ∈ q, c ≠ '%' ∧ c ≠ '_') :
    likeMatch ('%' :: (q ++ ['%'])) s = true ↔
      (q.map charFold) <:+: (s.map charFold) := by
  rw [likeMatch_percent_iff]
  constructor
  · rintro ⟨n, h⟩
    rw [likeMatch_plain_iff q hq] at h
    obtain ⟨m, _, hmap⟩ := h
    rw [infix_iff_drop_take]
    refine ⟨n, m, ?_⟩
    rw [← List.map_drop, ← List.map_take, hmap]
  · intro h
    rw [infix_iff_drop_take] at h
    obtain ⟨n, m, hm⟩ := h
    refine ⟨n, (likeMatch_plain_iff q hq _).2 ?_⟩
    refine ⟨m ⊓ (s.drop n).length, inf_le_right, ?_⟩
    have hlen : ((s.map charFold).drop n).length = (s.drop n).length := by
      simp
    have htake : List.take (m ⊓ (s.drop n).length) ((s.map charFold).drop n) =
        List.take m ((s.map charFold).drop n) := by
      rw [List.take_eq_take, hlen, inf_assoc, inf_idem]
    rw [List.map_take, List.map_drop, htake, hm]

/-! ## Claim C7: search semantics -/

/-- C7, counterexample: the claim "a row qualifies exactly when the term
occurs case-insensitively as a substring of the row's name or id" fails for
terms containing SQL LIKE wildcards: with the single stored row
`(id "001", name "abc")`, the term `"a_c"` is not a substring of either
field, yet `searchComponents` returns the row, because `_` in the LIKE
pattern matches any single character. -/
theorem searchComponents_wildcard_counterexample :
    searchComponents [⟨"001", some "abc", none, none, none⟩] "a_c" =
      [⟨"001", some "abc", none, none, none⟩] ∧
    ¬ substrCI "a_c" "abc" ∧ ¬ substrCI "a_c" "001" := by
  refine ⟨?_, by decide, by decide⟩
  simp [searchComponents, rowMatches, sqlitePattern, likeMatch, charFold,
    List.filter]

/-- C7, amended: `searchComponents` always returns at most 50 rows, and for
every search term free of the SQL LIKE wildcards `%` and `_`, a stored row
qualifies exactly when the term occurs case-insensitively (ASCII folding, as
SQLite's LIKE) as a substring of the row's name or of the row's id.  (For
terms containing `%` or `_` the qualification is LIKE-pattern matching,
which is weaker, as the counterexample shows.) -/
theorem searchComponents_like_spec (rows : List Row) (q : String)
    (hq : ∀ c ∈ q.toList, c ≠ '%' ∧ c ≠ '_') :
    (searchComponents rows q).length ≤ 50 ∧
    ∀ r ∈ rows, (rowMatches q r = true ↔
      (∃ n, r.name = some n ∧ substrCI q n) ∨ substrCI q r.id) := by
  constructor
  · exact List.length_take_le 50 _
  · intro r _
    unfold rowMatches substrCI sqlitePattern
    rw [Bool.or_eq_true]
    cases hname : r.name with
    | none =>
      rw [likeMatch_substr_iff _ _ hq]
      constructor
      · rintro (h | h)
        · exact absurd h (by simp)
        · exact Or.inr h
      · rintro (⟨n, hn, _⟩ | h)
        · exact absurd hn (by simp)
        · exact Or.inr h
    | some nm =>
      rw [likeMatch_substr_iff _ _ hq, likeMatch_substr_iff _ _ hq]
      constructor
      · rintro (h | h)
        · exact Or.inl ⟨nm, rfl, h⟩
        · exact Or.inr h
      · rintro (⟨n', hn', h⟩ | h)
        · cases hn'
          exact Or.inl h
        · exact Or.inr h

theorem searchComponents_like_spec_witness :
    (searchComponents ([⟨"1", some "MyAccount", none, none, none⟩] : List Row)
      "Acc").length ≤ 50 ∧
    ∀ r ∈ ([⟨"1", some "MyAccount", none, none, none⟩] : List Row),
      (rowMatches "Acc" r = true ↔
        (∃ n, r.name = some n ∧ substrCI "Acc" n) ∨ substrCI "Acc" r.id) :=
  searchComponents_like_spec [⟨"1", some "MyAccount", none, none, none⟩] "Acc"
    (by decide)

/-! ## Claim C10: the empty search term matches everything -/

theorem likeMatch_double_percent (s : List Char) : likeMatch ['%', '%'] s = true := by
  induction s with
  | nil => rw [likeMatch_percent_nil, likeMatch_nil_percent]
  | cons c s' ih =>
    rw [likeMatch_percent_cons, ih, likeMatch_nil_percent]
    rfl

/-- C10: `GET /api/components` without a `q` parameter searches with the
empty string; the LIKE pattern then is `%%`, which matches every row (every
row matches at least through its non-NULL id), so the endpoint returns the
whole components table capped at 50 rows — not an empty list. -/
theorem searchComponents_empty_query_returns_all (st : Store) :
    handleComponentsQuery st none = st.components.take 50 ∧
    (∀ r : Row, rowMatches "" r = true) ∧
    sqlitePattern "" = ['%', '%'] := by
  have hmatch : ∀ r : Row, rowMatches "" r = true := by
    intro r
    unfold rowMatches
    have hid : likeMatch (sqlitePattern "") r.id.toList = true :=
      likeMatch_double_percent _
    rw [hid]
    simp
  refine ⟨?_, hmatch, rfl⟩
  show searchComponents st.components "" = _
  unfold searchComponents
  rw [List.filter_eq_self.2 (fun r _ => hmatch r)]

/-! ## Claim C9: within-batch dedup is last-writer-wins -/

theorem mapGet_depStep (m : List (String × NodeRec)) (d : DepRecord) (A : String)
    (hA : A ≠ "") :
    mapGet (depStep m d) A =
      if d.RefMetadataComponentId = A then some (refNode d)
      else if d.MetadataComponentId = A then some (srcNode d)
      else mapGet m A := by
  simp only [depStep]
  by_cases hre : d.RefMetadataComponentId = ""
  · rw [if_pos hre]
    have href : d.RefMetadataComponentId ≠ A := by
      rw [hre]; exact fun h => hA h.symm
    rw [if_neg href]
    by_cases hse : d.MetadataComponentId = ""
    · rw [if_pos hse]
      have hsrc : d.MetadataComponentId ≠ A := by
        rw [hse]; exact fun h => hA h.symm
      rw [if_neg hsrc]
    · rw [if_neg hse, mapGet_mapSet]
  · rw [if_neg hre, mapGet_mapSet]
    by_cases href : d.RefMetadataComponentId = A
    · rw [if_pos href, if_pos href]
    · rw [if_neg href, if_neg href]
      by_cases hse : d.MetadataComponentId = ""
      · rw [if_pos hse]
        have hsrc : d.MetadataComponentId ≠ A := by
          rw [hse]; exact fun h => hA h.symm
        rw [if_neg hsrc]
      · rw [if_neg hse, mapGet_mapSet]

theorem mentionsOf_cons (A : String) (d : DepRecord) (ds : List DepRecord) :
    mentionsOf A (d :: ds) =
      (if d.MetadataComponentId = A then [srcNode d] else []) ++
      ((if d.RefMetadataComponentId = A then [refNode d] else []) ++ mentionsOf A ds) := by
  simp [mentionsOf]

/-- The `Map` built by the `insertDependencies` loop answers each id with the
latest mention of that id in the batch (or falls back to the initial map). -/
theorem mapGet_depFold (A : String) (hA : A ≠ "") :
    ∀ (deps : List DepRecord) (m : List (String × NodeRec)),
      mapGet (deps.foldl depStep m) A =
        match (mentionsOf A deps).getLast? with
        | some v => some v
        | none => mapGet m A := by
  intro deps
  induction deps with
  | nil => intro m; simp [mentionsOf]
  | cons d ds ih =>
    intro m
    rw [List.foldl_cons, ih (depStep m d), mentionsOf_cons]
    cases hlast : (mentionsOf A ds).getLast? with
    | some v =>
      rw [List.getLast?_append, List.getLast?_append, hlast]
      simp
    | none =>
      have hnil : mentionsOf A ds = [] := List.getLast?_eq_none_iff.1 hlast
      rw [hnil, List.append_nil, mapGet_depStep m d A hA]
      by_cases href : d.RefMetadataComponentId = A
      · rw [if_pos href]
        simp [href, List.getLast?_append]
      · rw [if_neg href]
        by_cases hsrc : d.MetadataComponentId = A
        · simp [hsrc, href, List.getLast?_append]
        · simp [hsrc, href]

theorem depStep_coherent {m : List (String × NodeRec)}
    (hm : ∀ e ∈ m, (e.2).id = e.1) (d : DepRecord) :
    ∀ e ∈ depStep m d, (e.2).id = e.1 := by
  simp only [depStep]
  have h1 : ∀ e ∈ (if d.MetadataComponentId = "" then m
      else mapSet m d.MetadataComponentId (srcNode d)), (e.2).id = e.1 := by
    by_cases hse : d.MetadataComponentId = ""
    · rw [if_pos hse]; exact hm
    · rw [if_neg hse]; exact mapSet_forall hm rfl
  by_cases hre : d.RefMetadataComponentId = ""
  · rw [if_pos hre]; exact h1
  · rw [if_neg hre]; exact mapSet_forall h1 rfl

theorem foldl_depStep_coherent :
    ∀ (ds : List DepRecord) (m : List (String × NodeRec)),
      (∀ e ∈ m, (e.2).id = e.1) →
      ∀ e ∈ ds.foldl depStep m, (e.2).id = e.1 := by
  intro ds
  induction ds with
  | nil => intro m hm; exact hm
  | cons d ds ih =>
    intro m hm
    rw [List.foldl_cons]
    exact ih _ (depStep_coherent hm d)

/-- C9: within one `insertDependencies` batch the in-memory `Map` dedup is
last-writer-wins — for an id not already stored, the persisted name/type come
from the LAST record in the batch mentioning that id (a record's referenced
endpoint counting after its source endpoint), even though store-level
conflict resolution is first-writer-wins. -/
theorem insertDependencies_last_writer_wins (deps : List DepRecord) (st : Store)
    (A : String) (hA : A ≠ "") (habs : lookupRow st.components A = none)
    (hmention : mentionsOf A deps ≠ []) :
    lookupRow (insertDependencies deps st).components A =
      ((mentionsOf A deps).getLast?).map toRow := by
  obtain ⟨v, hv⟩ : ∃ v, (mentionsOf A deps).getLast? = some v := by
    cases h : (mentionsOf A deps).getLast? with
    | some v => exact ⟨v, rfl⟩
    | none => exact absurd (List.getLast?_eq_none_iff.1 h) hmention
  have hget : mapGet (deps.foldl depStep []) A = some v := by
    rw [mapGet_depFold A hA deps [], hv]
  have hco := foldl_depStep_coherent deps [] (by intro e he; cases he)
  have hfind : ((deps.foldl depStep []).map Prod.snd).find? (fun c => c.id == A) =
      some v := by
    rw [List.find?_map]
    rw [find?_congr_mem (q := fun e => e.1 == A)
      (fun e he => by simp [Function.comp, hco e he])]
    exact hget
  have hcomp : (insertDependencies deps st).components =
      insertComponentsRows ((deps.foldl depStep []).map Prod.snd) st.components := rfl
  rw [hcomp, lookupRow_insertRows A hA, habs, hv]
  simp [hfind]

theorem insertDependencies_last_writer_wins_witness :
    lookupRow (insertDependencies
      [{ Id := none, MetadataComponentId := "S1", MetadataComponentName := some "s1",
         MetadataComponentType := some "T", RefMetadataComponentId := "Z",
         RefMetadataComponentName := some "zOld",
         RefMetadataComponentComponentName := none,
         RefMetadataComponentType := some "U" },
       { Id := none, MetadataComponentId := "S2", MetadataComponentName := some "s2",
         MetadataComponentType := some "T", RefMetadataComponentId := "Z",
         RefMetadataComponentName := some "zNew",
         RefMetadataComponentComponentName := none,
         RefMetadataComponentType := some "U" }]
      { components := [], deps := [] }).components "Z" =
    ((mentionsOf "Z"
      [{ Id := none, MetadataComponentId := "S1", MetadataComponentName := some "s1",
         MetadataComponentType := some "T", RefMetadataComponentId := "Z",
         RefMetadataComponentName := some "zOld",
         RefMetadataComponentComponentName := none,
         RefMetadataComponentType := some "U" },
       { Id := none, MetadataComponentId := "S2", MetadataComponentName := some "s2",
         MetadataComponentType := some "T", RefMetadataComponentId := "Z",
         RefMetadataComponentName := some "zNew",
         RefMetadataComponentComponentName := none,
         RefMetadataComponentType := some "U" }]).getLast?).map toRow :=
  insertDependencies_last_writer_wins _ { components := [], deps := [] } "Z"
    (by decide) (by decide) (by decide)

end DepViewer
